import Mathlib

/-!
Verification development for the private-blockchain core
(`src/blockchain.js`).

The JavaScript source is embedded shallowly:

* JS numbers that hold epoch milliseconds, heights and lengths are `Nat`
  (or `Int` where the source stores `-1`); the decimal rendering done by
  `Number.prototype.toString` is embedded as `decRender`.
* The SHA256 digest primitive and the `bitcoinjs-message` signature
  verifier are external collaborators; they are passed as explicit
  function parameters (`H`, `verify`), exactly as the spec treats them.
* The chain lives in an explicit `State` record that every operation
  takes and returns.  Because `_addBlock` can push the JavaScript value
  `undefined` onto `this.chain` (its `.catch` swallows the rejection and
  the following `.then` pushes its argument unconditionally), the chain
  is a `List (Option Block)`: `none` is a pushed `undefined`.
* A settled promise is a value: a promise that resolves with `v` is `v`,
  one that can also reject is `Except String v` carrying the message of
  the first `reject` call (later `resolve`/`reject` calls are no-ops,
  which the embedding reflects by keeping the first error).
* Asynchrony.  `validateChain` resolves synchronously with the
  `errorLog` array object; its `forEach` callbacks suspend at
  `await block.validate()` and resume on the microtask queue before any
  continuation that the caller attaches afterwards (the `.then` in
  `_addBlock` is registered after those resumptions are queued, and
  `Block.validate` settles its promise synchronously in its executor).
  Hence the caller of `validateChain` observes the fully populated
  error array, and the `chainErrorFound` flag in `_addBlock` is set
  before the final `.then` makes the push decision.  The embedding
  therefore evaluates the validation result eagerly.

The file `block.js` is required by the source but is not part of the
sources given; the pieces of it that matter (`Block` constructor,
`Block.validate`, `Block.getBData`) are modelled from the spec and are
marked as such in their doc comments.
-/

namespace PrivateBlockchain

/-! ### Embedding of JavaScript primitives -/

/-- Fuel-driven decimal digit list (most significant first) of a natural
number; `decDigitsF n n` is total because the value shrinks by a factor
of ten at each step while the fuel shrinks by one. -/
def decDigitsF : Nat → Nat → List Char
  | 0, _ => []
  | f + 1, n => if n = 0 then [] else decDigitsF f (n / 10) ++ [Nat.digitChar (n % 10)]

/-- Decimal digit list of a natural number, most significant first. -/
def decDigits (n : Nat) : List Char :=
  decDigitsF n n

/-- Embedding of `Number.prototype.toString` (base 10) on the
non-negative integers the source renders. -/
def decRender (n : Nat) : String :=
  if n = 0 then "0" else String.mk (decDigits n)

/-- Embedding of `s.slice(0, -n)`: drop the last `n` characters
(JavaScript clamps a negative end index to `0`, as `Nat` subtraction
does here). -/
def sliceDropLast (s : String) (n : Nat) : String :=
  String.mk (s.data.take (s.data.length - n))

/-- `getUTCTimestamp()` from the source:
`new Date().getTime().toString().slice(0,-3)` — the decimal rendering of
the millisecond clock with its last three characters deleted.  Note the
result is a string. -/
def getUTCTimestamp (nowMs : Nat) : String :=
  sliceDropLast (decRender nowMs) 3

/-- Splitting a character list at every occurrence of the separator,
embedding `String.prototype.split`. -/
def splitOnCharList (sep : Char) : List Char → List (List Char)
  | [] => [[]]
  | c :: cs =>
    let rest := splitOnCharList sep cs
    if c = sep then [] :: rest
    else
      match rest with
      | [] => [[c]]
      | g :: gs => (c :: g) :: gs

/-- Embedding of `message.split(sep)`. -/
def jsSplit (s : String) (sep : Char) : List String :=
  (splitOnCharList sep s.data).map String.mk

/-- Value of a decimal digit character. -/
def digitVal (c : Char) : Option Nat :=
  if c.isDigit then some (c.toNat - 48) else none

/-- Accumulating decimal parser over a character list. -/
def parseDecAux : Nat → List Char → Option Nat
  | acc, [] => some acc
  | acc, c :: cs =>
    match digitVal c with
    | some d => parseDecAux (acc * 10 + d) cs
    | none => none

/-- Embedding of `parseInt` on the strings the source feeds it: a
non-empty all-digit string parses to its decimal value, anything else is
`NaN`, embedded as `none` (every comparison against `NaN` is false, which
the call sites reproduce by treating `none` as a failed comparison). -/
def jsParseInt (s : String) : Option Int :=
  match s.data with
  | [] => none
  | cs => (parseDecAux 0 cs).map Int.ofNat

/-! ### The Block record -/

/-- A block of the chain.  Field names follow the source.  `hash` and
`time` are `""` while unset (the constructor initialises them to the
falsy values `null` / `0`; `""` is the falsy string standing for them,
which preserves every truthiness test the source performs). -/
structure Block where
  body : String
  owner : Option String
  previousBlockHash : Option String
  height : Nat
  time : String
  hash : String

deriving instance DecidableEq for Block

deriving instance Repr for Block

/-- Modelled from the spec: the `Block` constructor of the missing
`block.js` stores the caller payload as an opaque encoded blob (the spec
places payload encoding out of scope, so the encoding is the identity
here), zeroes `height`/`time`, and leaves `hash` and
`previousBlockHash` unset; `owner` is absent until the submission
workflow assigns it. -/
def Block.new (data : String) : Block :=
  { body := data, owner := none, previousBlockHash := none
    height := 0, time := "", hash := "" }

/-- The canonical serialization the digest is computed over:
`JSON.stringify(block)` at seal time, when the constructor-initialised
`hash` is still `null`.  It mentions every field except the final hash
(the `hash` slot is the constant `null`), in the constructor insertion
order, with `owner` absent when it was never assigned.  Modelled from
the spec for the parts owned by the missing `block.js` (field order and
the hash-is-null convention of `Block.validate`). -/
def preImage (b : Block) : String :=
  "\x7b\"hash\":null,\"height\":" ++ decRender b.height ++
    ",\"body\":\"" ++ b.body ++
    "\",\"time\":\"" ++ b.time ++
    "\",\"previousBlockHash\":" ++
    (match b.previousBlockHash with
     | none => "null"
     | some p => "\"" ++ p ++ "\"") ++
    (match b.owner with
     | none => ""
     | some o => ",\"owner\":\"" ++ o ++ "\"") ++
    "\x7d"

/-- Modelled from the spec: `Block.validate` of the missing `block.js`
recomputes the digest from the stored fields (with the `hash` slot
nulled out) and compares it with the stored `hash`; it settles its
promise synchronously. -/
def blockValidate (H : String → String) (b : Block) : Bool :=
  H (preImage b) == b.hash

/-! ### Chain state and operations -/

/-- The mutable fields of the `Blockchain` instance: `this.chain` (whose
entries can be the pushed `undefined`, see the header comment) and
`this.height`, an `Int` because the constructor stores `-1`. -/
structure State where
  chain : List (Option Block)
  height : Int

deriving instance DecidableEq for Except

deriving instance DecidableEq for State

deriving instance Repr for State

/-- The state set up by the `Blockchain` constructor before
`initializeChain` runs. -/
def ctorState : State :=
  { chain := [], height := -1 }

/-- The defined blocks of the chain, in order. -/
def blocks (st : State) : List Block :=
  st.chain.filterMap id

/-- `this.chain[height - 1] ? this.chain[height - 1].hash : null` with
`height` the current chain length: the hash of the last chain entry when
that entry is a truthy (defined) block, else `null`. -/
def lastHashAt (chain : List (Option Block)) : Option String :=
  match chain[chain.length - 1]? with
  | some (some b) => some b.hash
  | _ => none

/-- The per-block body of the `forEach` in `validateChain`: a
hash-mismatch entry followed by a broken-link entry, each pushed only
when its check fails.  The link check runs only for `block.height > 0`
and compares `previousBlockHash` with the stored hash of the chain entry
at index `height - 1`. -/
def perBlockErrors (H : String → String) (ch : List Block) (b : Block) : List String :=
  (if blockValidate H b then []
   else ["Block " ++ decRender b.height ++ " is not valid."]) ++
  (if 0 < b.height ∧ b.previousBlockHash ≠ (ch[b.height - 1]?).map Block.hash then
    ["Block " ++ decRender b.height ++ " does not link to previous Block " ++
      decRender (b.height - 1) ++ "."]
   else [])

/-- `validateChain()`: the `errorLog` array as the caller observes it —
all pushes of all `forEach` callbacks, in chain order (see the header
comment on asynchrony; the `resolve` calls inside the callbacks are
no-ops because the promise is already settled with the array object). -/
def validateChainErrors (H : String → String) (ch : List Block) : List String :=
  ch.foldl (fun log b => log ++ perBlockErrors H ch b) []

/-- `validateChain` as a state operation: it resolves with the error
list and leaves the instance untouched. -/
def validateChainOp (H : String → String) (st : State) : List String × State :=
  (validateChainErrors H (blocks st), st)

/-- The sealing performed inside `_addBlock`: assign
`previousBlockHash`, `height`, `time`, then compute `hash` over the
serialization of the now-populated fields. -/
def sealBlock (H : String → String) (nowMs : Nat) (st : State) (b : Block) : Block :=
  let b1 : Block :=
    { b with
      previousBlockHash := lastHashAt st.chain
      height := st.chain.length
      time := getUTCTimestamp nowMs }
  { b1 with hash := H (preImage b1) }

/-- The `isBlockValid` conjunction of `_addBlock`: truthy hash, truthy
time, height equal to the current chain length, hash of length 64. -/
def sealValid (chainLen : Nat) (b : Block) : Bool :=
  b.hash != "" && b.time != "" && b.height == chainLen && b.hash.length == 64

/-- `_addBlock(block)`.  The background `validateChain().then(...)` sets
`chainErrorFound` before the final `.then` runs (header comment).  The
inner promise seals the candidate and resolves with it when
`isBlockValid` holds, otherwise rejects — but the rejection is consumed
by `.catch(error => console.log(...))`, which resolves with `undefined`
(`none`).  The final `.then` then pushes its argument — the sealed block
or `undefined` — whenever `chainErrorFound` is false, and updates
`this.height` to the new `this.chain.length - 1`.  The returned promise
therefore always resolves (the `Except` error slot is never filled by
this operation). -/
def addBlockStep (H : String → String) (nowMs : Nat) (st : State) (b : Block) :
    Except String (Option Block) × State :=
  let chainErrorFound := validateChainErrors H (blocks st) != []
  let sealed := sealBlock H nowMs st b
  let pushed : Option Block := if sealValid st.chain.length sealed then some sealed else none
  if chainErrorFound then (Except.ok none, st)
  else
    (Except.ok pushed,
      { chain := st.chain ++ [pushed]
        height := ((st.chain ++ [pushed]).length : Int) - 1 })

/-- The payload of the genesis block, `{data: "Genesis Block"}` (payload
encoding is the identity, see `Block.new`). -/
def genesisData : String := "Genesis Block"

/-- `initializeChain()`: seed the chain with the genesis block when
`this.height` is still `-1`. -/
def initializeChain (H : String → String) (nowMs : Nat) (st : State) : State :=
  if st.height = -1 then (addBlockStep H nowMs st (Block.new genesisData)).2 else st

/-- `getChainHeight()` resolves with `this.height`. -/
def getChainHeight (st : State) : Int :=
  st.height

/-- `requestMessageOwnershipVerification(address)` resolves with the
challenge message built from the address, the sliced second-resolution
timestamp string and the protocol tag. -/
def requestMessageOwnershipVerification (nowMs : Nat) (address : String) : String :=
  address ++ ":" ++ getUTCTimestamp nowMs ++ ":starRegistry"

/-- The five-minute submission window of `submitStar`, in seconds. -/
def targetTime : Int := 5 * 60

/-- The expiry test of `submitStar`: `elapsedTime > targetTime` with
`elapsedTime = currentTime - requestedTime`.  When either `parseInt`
produced `NaN` (`none`) the comparison is false, so no expiry rejection
fires. -/
def expiredAt (currentTime requestedTime : Option Int) : Bool :=
  match currentTime, requestedTime with
  | some c, some r => decide (c - r > targetTime)
  | _, _ => false

/-- `submitStar(address, message, signature, star)`.  The issued
timestamp is `parseInt(message.split(":")[1])`, the current time
`parseInt` of the sliced clock string.  A failed window check rejects
with `"Time has elapsed"`, a failed signature verification rejects with
`"Message is invalid"` — but neither rejection returns from the
executor, so the star block is built and `_addBlock` runs in every case;
only the first settlement decides the reported result. -/
def submitStar (H : String → String) (verify : String → String → String → Bool)
    (nowMs : Nat) (st : State) (address message signature star : String) :
    Except String (Option Block) × State :=
  let requestedTime := ((jsSplit message ':')[1]?).bind jsParseInt
  let currentTime := jsParseInt (getUTCTimestamp nowMs)
  let expired := expiredAt currentTime requestedTime
  let sigOk := verify message address signature
  let b0 : Block := { Block.new star with owner := some address }
  let stepped := addBlockStep H nowMs st b0
  let result : Except String (Option Block) :=
    if expired then Except.error ("Time has elapsed")
    else if !sigOk then Except.error ("Message is invalid")
    else stepped.1
  (result, stepped.2)

/-- A query result of `getStarsByWalletAddress`: the decoded payload
(`getBData`, modelled from the spec as the opaque stored blob) with the
`owner` property the method assigns afterwards. -/
structure Star where
  payload : String
  owner : String

deriving instance DecidableEq for Star

/-- `getStarsByWalletAddress(address)`: filter the chain for blocks whose
`owner` is the address, decode each body (`getBData`, modelled from the
spec), and annotate every result with the owner address. -/
def getStarsByWalletAddress (st : State) (address : String) : List Star :=
  ((blocks st).filter (fun b => b.owner == some address)).map
    (fun b => { payload := b.body, owner := address })

/-! ### Spec-side predicates -/

/-- The validator contract in the words of the spec: every block
re-hashes to its stored `hash`, and every block links to the stored hash
of its predecessor. -/
def ChainValidSpec (H : String → String) (ch : List Block) : Prop :=
  (∀ b ∈ ch, H (preImage b) = b.hash) ∧
  (∀ i b b2, ch[i]? = some b → ch[i + 1]? = some b2 →
    b2.previousBlockHash = some b.hash)

/-- A good digest collaborator, as §4.1 of the spec demands: a fixed
64-character, never-empty rendering. -/
def GoodHasher (H : String → String) : Prop :=
  ∀ s, (H s).length = 64 ∧ H s ≠ ""

/-- The states the program can actually be in: the constructor state
initialised by `initializeChain`, followed by any number of `_addBlock`
calls, all while the millisecond clock reads at least `1000` (i.e. the
sliced timestamp string is non-empty, which is true from the first
second of 1970 on). -/
inductive Reachable (H : String → String) : State → Prop where
  | genesis : ∀ now : Nat, 1000 ≤ now → Reachable H (initializeChain H now ctorState)
  | append : ∀ (st : State) (now : Nat) (b : Block), Reachable H st → 1000 ≤ now →
      Reachable H ((addBlockStep H now st b).2)

/-! ### Concrete collaborators for witness evaluations -/

/-- A fixed 64-character digest value. -/
def hash64 : String := "aaaaaaaaaaaaaaaaaaaaaaaaaaaaaaaaaaaaaaaaaaaaaaaaaaaaaaaaaaaaaaaa"

/-- A concrete digest collaborator with the shape §4.1 demands. -/
def constH : String → String := fun _ => hash64

/-- The initialised chain (constructor followed by `initializeChain`) at
clock `1000000` ms, under `constH`. -/
def stG : State := initializeChain constH 1000000 ctorState

/-- A block whose stored `hash` does not re-compute: a tampered chain
entry. -/
def badBlock : Block :=
  { body := "g", owner := none, previousBlockHash := none
    height := 0, time := "1000", hash := "deadbeef" }

/-- A corrupt chain state: one block whose digest check fails. -/
def stC : State := { chain := [some badBlock], height := 0 }

theorem constH_good : GoodHasher constH := by
  intro s
  refine ⟨?_, ?_⟩
  · show hash64.length = 64
    decide
  · show hash64 ≠ ""
    decide

/-! ### Decimal-rendering lemmas -/

theorem decDigitsF_congr (f1 : Nat) : ∀ (f2 n : Nat), n ≤ f1 → n ≤ f2 →
    decDigitsF f1 n = decDigitsF f2 n := by
  induction f1 with
  | zero =>
    intro f2 n h1 _
    have hn : n = 0 := Nat.le_zero.mp h1
    subst hn
    cases f2 <;> simp [decDigitsF]
  | succ f ih =>
    intro f2 n h1 h2
    cases f2 with
    | zero =>
      have hn : n = 0 := Nat.le_zero.mp h2
      subst hn
      simp [decDigitsF]
    | succ f2 =>
      by_cases hn : n = 0
      · subst hn; simp [decDigitsF]
      · have hlt : n / 10 < n := Nat.div_lt_self (Nat.pos_of_ne_zero hn) (by omega)
        simp only [decDigitsF, if_neg hn]
        rw [ih f2 (n / 10) (by omega) (by omega)]

theorem decDigits_mul_add (q k : Nat) (hq : 0 < q) (hk : k < 10) :
    decDigits (10 * q + k) = decDigits q ++ [Nat.digitChar k] := by
  obtain ⟨f, hf⟩ : ∃ f, 10 * q + k = f + 1 := ⟨10 * q + k - 1, by omega⟩
  unfold decDigits
  rw [hf]
  rw [show decDigitsF (f + 1) (f + 1) =
        decDigitsF f ((f + 1) / 10) ++ [Nat.digitChar ((f + 1) % 10)] from by
    simp [decDigitsF]]
  have hdiv : (f + 1) / 10 = q := by omega
  have hmod : (f + 1) % 10 = k := by omega
  rw [hdiv, hmod]
  exact congrArg (fun l => l ++ [Nat.digitChar k])
    (decDigitsF_congr f q q (by omega) (Nat.le_refl q))

theorem decDigits_ne_nil (n : Nat) (h : 0 < n) : decDigits n ≠ [] := by
  obtain ⟨f, hf⟩ : ∃ f, n = f + 1 := ⟨n - 1, by omega⟩
  subst hf
  simp [decDigits, decDigitsF]

theorem sliceDropLast_append3 (xs : List Char) (a b c2 : Char) :
    sliceDropLast (String.mk (xs ++ [a, b, c2])) 3 = String.mk xs := by
  unfold sliceDropLast
  congr 1
  show (xs ++ [a, b, c2]).take ((xs ++ [a, b, c2]).length - 3) = xs
  rw [List.length_append]
  rw [show xs.length + ([a, b, c2] : List Char).length - 3 = xs.length from by simp]
  exact List.take_left xs _

/-- For clock readings of at least one second, slicing off the last
three characters of the millisecond rendering is exactly the decimal
rendering of the floor division by 1000. -/
theorem getUTCTimestamp_eq_div (ms : Nat) (h : 1000 ≤ ms) :
    getUTCTimestamp ms = decRender (ms / 1000) := by
  have h1 : decDigits ms = decDigits (ms / 10) ++ [Nat.digitChar (ms % 10)] := by
    have hx := decDigits_mul_add (ms / 10) (ms % 10) (by omega) (by omega)
    rw [show 10 * (ms / 10) + ms % 10 = ms from by omega] at hx
    exact hx
  have h2 : decDigits (ms / 10) = decDigits (ms / 100) ++ [Nat.digitChar (ms / 10 % 10)] := by
    have hx := decDigits_mul_add (ms / 100) (ms / 10 % 10) (by omega) (by omega)
    rw [show 10 * (ms / 100) + ms / 10 % 10 = ms / 10 from by omega] at hx
    exact hx
  have h3 : decDigits (ms / 100) = decDigits (ms / 1000) ++ [Nat.digitChar (ms / 100 % 10)] := by
    have hx := decDigits_mul_add (ms / 1000) (ms / 100 % 10) (by omega) (by omega)
    rw [show 10 * (ms / 1000) + ms / 100 % 10 = ms / 100 from by omega] at hx
    exact hx
  have hsplit : decDigits ms = decDigits (ms / 1000) ++
      [Nat.digitChar (ms / 100 % 10), Nat.digitChar (ms / 10 % 10), Nat.digitChar (ms % 10)] := by
    rw [h1, h2, h3]
    simp
  unfold getUTCTimestamp
  rw [show decRender ms = String.mk (decDigits ms) from by
    unfold decRender; rw [if_neg (by omega)]]
  rw [show decRender (ms / 1000) = String.mk (decDigits (ms / 1000)) from by
    unfold decRender; rw [if_neg (by omega)]]
  rw [hsplit]
  exact sliceDropLast_append3 _ _ _ _

theorem getUTCTimestamp_ne_empty (ms : Nat) (h : 1000 ≤ ms) : getUTCTimestamp ms ≠ "" := by
  rw [getUTCTimestamp_eq_div ms h]
  unfold decRender
  rw [if_neg (by omega)]
  intro hcon
  exact decDigits_ne_nil (ms / 1000) (by omega) (congrArg String.data hcon)

/-! ### Structure of the validation error list -/

theorem foldl_append_flatten (f : Block → List String) (ch : List Block) :
    ∀ init : List String, ch.foldl (fun log b => log ++ f b) init = init ++ (ch.map f).flatten := by
  induction ch with
  | nil => intro init; simp
  | cons b bs ih => intro init; simp [ih, List.append_assoc]

theorem validateChainErrors_eq_flatten (H : String → String) (ch : List Block) :
    validateChainErrors H ch = (ch.map (perBlockErrors H ch)).flatten := by
  unfold validateChainErrors
  rw [foldl_append_flatten]
  rfl

/-! ### The chain invariant and its preservation -/

/-- The invariant every program-produced state satisfies (under a good
hasher): no `undefined` entries, positional heights, correct stored
hashes, correct back-links, a sentinel ownerless genesis entry, and the
height counter at `length - 1`.  All but non-emptiness also hold of the
pre-genesis constructor state, which keeps the induction uniform. -/
structure ChainInv (H : String → String) (st : State) : Prop where
  noUndef : st.chain = (blocks st).map some
  heightIdx : ∀ (i : Nat) (b : Block), (blocks st)[i]? = some b → b.height = i
  hashOk : ∀ b ∈ blocks st, b.hash = H (preImage b)
  linkOk : ∀ (i : Nat) (b b2 : Block), (blocks st)[i]? = some b →
    (blocks st)[i + 1]? = some b2 → b2.previousBlockHash = some b.hash
  genesis0 : ∀ b : Block, (blocks st)[0]? = some b →
    b.previousBlockHash = none ∧ b.owner = none
  heightEq : st.height = (st.chain.length : Int) - 1

theorem inv_ctor (H : String → String) : ChainInv H ctorState := by
  refine ⟨rfl, ?_, ?_, ?_, ?_, ?_⟩
  · intro i b hb
    simp [blocks, ctorState] at hb
  · intro b hb
    simp [blocks, ctorState] at hb
  · intro i b b2 hb hb2
    simp [blocks, ctorState] at hb
  · intro b hb
    simp [blocks, ctorState] at hb
  · decide

theorem chain_length_eq (H : String → String) (st : State) (hi : ChainInv H st) :
    st.chain.length = (blocks st).length := by
  rw [hi.noUndef, List.length_map]

/-- Under the invariant, every `forEach` body of `validateChain` pushes
nothing, so the observed error list is empty. -/
theorem inv_validate_nil (H : String → String) (st : State) (hi : ChainInv H st) :
    validateChainErrors H (blocks st) = [] := by
  rw [validateChainErrors_eq_flatten, List.flatten_eq_nil_iff]
  intro l hl
  rw [List.mem_map] at hl
  obtain ⟨b, hb, rfl⟩ := hl
  obtain ⟨i, hbi⟩ := List.mem_iff_getElem?.1 hb
  have hv : blockValidate H b = true := by
    simp [blockValidate, hi.hashOk b hb]
  have hh : b.height = i := hi.heightIdx i b hbi
  rw [perBlockErrors, if_pos hv, List.nil_append, if_neg]
  intro hcon
  obtain ⟨hpos, hne⟩ := hcon
  have hipos : 0 < i := hh ▸ hpos
  have hilen : i < (blocks st).length := by
    obtain ⟨hw, -⟩ := List.getElem?_eq_some.1 hbi
    exact hw
  obtain ⟨bp, hprev⟩ : ∃ bp : Block, (blocks st)[i - 1]? = some bp :=
    ⟨_, List.getElem?_eq_getElem (by omega)⟩
  have hlink := hi.linkOk (i - 1) bp b hprev
    (by rw [show i - 1 + 1 = i from by omega]; exact hbi)
  apply hne
  rw [hh, hprev, hlink]
  rfl

/-- Field values of the sealed candidate. -/
theorem sealBlock_fields (H : String → String) (nowMs : Nat) (st : State) (b : Block) :
    (sealBlock H nowMs st b).height = st.chain.length ∧
    (sealBlock H nowMs st b).time = getUTCTimestamp nowMs ∧
    (sealBlock H nowMs st b).previousBlockHash = lastHashAt st.chain ∧
    (sealBlock H nowMs st b).owner = b.owner ∧
    (sealBlock H nowMs st b).hash = H (preImage (sealBlock H nowMs st b)) :=
  ⟨rfl, rfl, rfl, rfl, rfl⟩

/-- Under a good hasher and a clock of at least one second, the
`isBlockValid` conjunction of `_addBlock` always passes. -/
theorem sealValid_of_good (H : String → String) (hH : GoodHasher H) (nowMs : Nat)
    (hn : 1000 ≤ nowMs) (st : State) (b : Block) :
    sealValid st.chain.length (sealBlock H nowMs st b) = true := by
  have h1 : (sealBlock H nowMs st b).hash = H (preImage (sealBlock H nowMs st b)) := rfl
  have h2 : (sealBlock H nowMs st b).time = getUTCTimestamp nowMs := rfl
  have h3 : (sealBlock H nowMs st b).height = st.chain.length := rfl
  obtain ⟨hlen, hne⟩ := hH (preImage (sealBlock H nowMs st b))
  unfold sealValid
  rw [h1, h2, h3]
  simp [hne, hlen, getUTCTimestamp_ne_empty nowMs hn]

theorem addBlockStep_success (H : String → String) (nowMs : Nat) (st : State) (b : Block)
    (hclean : validateChainErrors H (blocks st) = [])
    (hvalid : sealValid st.chain.length (sealBlock H nowMs st b) = true) :
    addBlockStep H nowMs st b =
      (Except.ok (some (sealBlock H nowMs st b)),
        State.mk (st.chain ++ [some (sealBlock H nowMs st b)])
          (((st.chain ++ [some (sealBlock H nowMs st b)]).length : Int) - 1)) := by
  unfold addBlockStep
  rw [if_neg (by simp [hclean]), if_pos hvalid]

theorem blocks_snoc (ch : List (Option Block)) (b : Block) (h : Int) :
    blocks (State.mk (ch ++ [some b]) h) = blocks (State.mk ch 0) ++ [b] := by
  simp [blocks, List.filterMap_append]

/-- `blocks` only looks at the chain. -/
theorem blocks_mk (ch : List (Option Block)) (h : Int) (st : State) (hch : st.chain = ch) :
    blocks st = blocks (State.mk ch h) := by
  unfold blocks
  rw [hch]

/-- The hash of the last chain entry as `_addBlock` reads it, under the
invariant: the stored hash of the last defined block. -/
theorem lastHashAt_inv (H : String → String) (st : State) (hi : ChainInv H st)
    (i : Nat) (b : Block)
    (hb : (blocks st)[i]? = some b) (hlast : i + 1 = (blocks st).length) :
    lastHashAt st.chain = some b.hash := by
  unfold lastHashAt
  rw [hi.noUndef]
  have hlen : ((blocks st).map some).length = (blocks st).length := List.length_map _ _
  rw [hlen, show (blocks st).length - 1 = i from by omega, List.getElem?_map, hb]
  rfl

/-- One successful `_addBlock` step preserves the invariant; the pushed
entry is the sealed candidate. -/
theorem inv_step (H : String → String) (hH : GoodHasher H) (nowMs : Nat) (hn : 1000 ≤ nowMs)
    (st : State) (b : Block) (hi : ChainInv H st)
    (hgen : blocks st = [] → b.owner = none) :
    ChainInv H ((addBlockStep H nowMs st b).2) ∧ blocks ((addBlockStep H nowMs st b).2) ≠ [] := by
  have hclean := inv_validate_nil H st hi
  have hvalid := sealValid_of_good H hH nowMs hn st b
  rw [addBlockStep_success H nowMs st b hclean hvalid]
  set s := sealBlock H nowMs st b with hs
  have hbl : blocks (State.mk (st.chain ++ [some s])
      (((st.chain ++ [some s]).length : Int) - 1)) = blocks st ++ [s] := by
    rw [blocks_snoc st.chain s]
    rw [show blocks (State.mk st.chain 0) = blocks st from rfl]
  have hlenc := chain_length_eq H st hi
  have hsh : s.height = (blocks st).length := by
    rw [hs]
    exact hlenc ▸ (sealBlock_fields H nowMs st b).1
  constructor
  · refine ⟨?_, ?_, ?_, ?_, ?_, ?_⟩
    · show st.chain ++ [some s] = _
      rw [hbl, List.map_append, ← hi.noUndef]
      rfl
    · intro i b2 hb2
      rw [hbl, List.getElem?_append] at hb2
      by_cases hlt : i < (blocks st).length
      · rw [if_pos hlt] at hb2
        exact hi.heightIdx i b2 hb2
      · rw [if_neg hlt] at hb2
        have hi0 : i - (blocks st).length = 0 := by
          by_contra hcon
          obtain ⟨j, hj⟩ : ∃ j, i - (blocks st).length = j + 1 :=
            ⟨i - (blocks st).length - 1, by omega⟩
          rw [hj] at hb2
          simp at hb2
        rw [hi0] at hb2
        simp at hb2
        rw [← hb2, hsh]
        omega
    · intro b2 hb2
      rw [hbl, List.mem_append] at hb2
      rcases hb2 with hb2 | hb2
      · exact hi.hashOk b2 hb2
      · rw [List.mem_singleton] at hb2
        subst hb2
        exact (sealBlock_fields H nowMs st b).2.2.2.2
    · intro i b2 b3 hb2 hb3
      rw [hbl, List.getElem?_append] at hb2 hb3
      by_cases hlt : i + 1 < (blocks st).length
      · rw [if_pos hlt] at hb3
        rw [if_pos (by omega)] at hb2
        exact hi.linkOk i b2 b3 hb2 hb3
      · by_cases heq : i + 1 = (blocks st).length
        · rw [if_pos (by omega)] at hb2
          rw [if_neg hlt, show i + 1 - (blocks st).length = 0 from by omega] at hb3
          simp at hb3
          subst hb3
          rw [hs]
          rw [(sealBlock_fields H nowMs st b).2.2.1]
          exact lastHashAt_inv H st hi i b2 hb2 heq
        · rw [if_neg hlt] at hb3
          obtain ⟨j, hj⟩ : ∃ j, i + 1 - (blocks st).length = j + 1 :=
            ⟨i - (blocks st).length, by omega⟩
          rw [hj] at hb3
          simp at hb3
    · intro b2 hb2
      rw [hbl, List.getElem?_append] at hb2
      by_cases hlt : 0 < (blocks st).length
      · rw [if_pos hlt] at hb2
        exact hi.genesis0 b2 hb2
      · have hnil : blocks st = [] := List.length_eq_zero.1 (by omega)
        rw [if_neg hlt, hnil] at hb2
        simp at hb2
        subst hb2
        constructor
        · rw [hs, (sealBlock_fields H nowMs st b).2.2.1]
          have hchn : st.chain = [] := by
            rw [hi.noUndef, hnil]
            rfl
          rw [hchn]
          rfl
        · rw [hs, (sealBlock_fields H nowMs st b).2.2.2.1]
          exact hgen hnil
    · rfl
  · rw [hbl]
    simp

/-- Every reachable state satisfies the invariant and has a non-empty
chain. -/
theorem reachable_inv (H : String → String) (hH : GoodHasher H) (st : State)
    (hr : Reachable H st) : ChainInv H st ∧ blocks st ≠ [] := by
  induction hr with
  | genesis now hn =>
    have hstep := inv_step H hH now hn ctorState (Block.new genesisData) (inv_ctor H)
      (fun _ => rfl)
    have hinit : initializeChain H now ctorState =
        (addBlockStep H now ctorState (Block.new genesisData)).2 := by
      unfold initializeChain
      rw [if_pos]
      show ctorState.height = -1
      decide
    rw [hinit]
    exact hstep
  | append st now b hr hn ih =>
    exact inv_step H hH now hn st b ih.1 (fun hnil => absurd hnil ih.2)

/-- `this.height` tracks `this.chain.length - 1` through every branch of
`_addBlock`, with no assumption on the hasher or the clock. -/
theorem addBlockStep_height (H : String → String) (nowMs : Nat) (st : State) (b : Block)
    (h : st.height = (st.chain.length : Int) - 1) :
    (addBlockStep H nowMs st b).2.height =
      ((addBlockStep H nowMs st b).2.chain.length : Int) - 1 := by
  unfold addBlockStep
  by_cases hc : validateChainErrors H (blocks st) != []
  · rw [if_pos hc]
    exact h
  · rw [if_neg hc]

theorem reachable_height_eq (H : String → String) (st : State) (hr : Reachable H st) :
    st.height = (st.chain.length : Int) - 1 := by
  induction hr with
  | genesis now hn =>
    have hinit : initializeChain H now ctorState =
        (addBlockStep H now ctorState (Block.new genesisData)).2 := by
      unfold initializeChain
      rw [if_pos]
      show ctorState.height = -1
      decide
    rw [hinit]
    exact addBlockStep_height H now ctorState (Block.new genesisData) (by decide)
  | append st now b hr hn ih =>
    exact addBlockStep_height H now st b ih

/-! ### Claim theorems -/

/-- C1: the claim states that a failing `submitStar` — expired window or
failing signature — never mutates the chain.  The code evaluates both
checks before `_addBlock`, but its `reject` calls do not return from the
executor, so the star block is appended anyway.  This theorem evaluates
the embedded code on two concrete failing submissions against the
initialised genesis chain: an expired one (issued at second 1000,
submitted at second 1301, elapsed 301 s) and an in-window one whose
signature verifier returns false.  Both report the documented rejection,
and both grow the chain by one block — contradicting the claim. -/
theorem c1_failed_submission_still_appends :
    (submitStar constH (fun _ _ _ => true) 1301000 stG ("addr")
      ("addr:1000:starRegistry") ("sig") ("pay")).1 = Except.error ("Time has elapsed") ∧
    (submitStar constH (fun _ _ _ => true) 1301000 stG ("addr")
      ("addr:1000:starRegistry") ("sig") ("pay")).2.chain.length = stG.chain.length + 1 ∧
    (submitStar constH (fun _ _ _ => false) 1100000 stG ("addr")
      ("addr:1000:starRegistry") ("sig") ("pay")).1 = Except.error ("Message is invalid") ∧
    (submitStar constH (fun _ _ _ => false) 1100000 stG ("addr")
      ("addr:1000:starRegistry") ("sig") ("pay")).2.chain.length = stG.chain.length + 1 :=
  ⟨by rfl, by decide, by rfl, by decide⟩

/-- C2: the claim states that when the post-seal `isBlockValid` check of
`_addBlock` fails, the operation fails with an invalid-block error, the
candidate is discarded and nothing is pushed.  In the code the rejection
is swallowed by `.catch` and the final `.then` pushes `undefined`.  At
clock reading 0 ms the sealed timestamp is the empty string, so the
check demonstrably fails — and the embedded code resolves with no error
and appends an `undefined` entry (`none`) to the chain. -/
theorem c2_invalid_seal_swallowed_and_pushed :
    sealValid stG.chain.length (sealBlock constH 0 stG (Block.new ("x"))) = false ∧
    (addBlockStep constH 0 stG (Block.new ("x"))).1 = Except.ok none ∧
    (addBlockStep constH 0 stG (Block.new ("x"))).2.chain = stG.chain ++ [none] :=
  ⟨by decide, by decide, by decide⟩

/-- C3: `validateChain` is read-only, reports every hash-mismatch and
every broken back-link grouped per block in chain order (hence ascending
height order, by the height-index hypothesis that holds of every chain
the data model admits), never stops at the first violation, and returns
the empty sequence exactly when the chain satisfies the validator
contract of the spec. -/
theorem c3_validate_complete_readonly (H : String → String) (st : State)
    (hidx : ∀ i : Fin (blocks st).length, ((blocks st).get i).height = (i : Nat)) :
    (validateChainOp H st).2 = st ∧
    (validateChainOp H st).1 = ((blocks st).map (perBlockErrors H (blocks st))).flatten ∧
    ((validateChainOp H st).1 = [] ↔ ChainValidSpec H (blocks st)) := by
  have hidx2 : ∀ (i : Nat) (b : Block), (blocks st)[i]? = some b → b.height = i := by
    intro i b hb
    obtain ⟨hw, he⟩ := List.getElem?_eq_some.1 hb
    have hfin := hidx ⟨i, hw⟩
    rw [List.get_eq_getElem] at hfin
    rw [← he]
    exact hfin
  refine ⟨rfl, validateChainErrors_eq_flatten H (blocks st), ?_⟩
  show validateChainErrors H (blocks st) = [] ↔ _
  rw [validateChainErrors_eq_flatten, List.flatten_eq_nil_iff]
  constructor
  · intro hall
    constructor
    · intro b hb
      have hpb : perBlockErrors H (blocks st) b = [] :=
        hall _ (List.mem_map.2 ⟨b, hb, rfl⟩)
      rw [perBlockErrors, List.append_eq_nil] at hpb
      have h1 := hpb.1
      by_cases hv : blockValidate H b
      · unfold blockValidate at hv
        exact beq_iff_eq.1 hv
      · rw [if_neg hv] at h1
        exact absurd h1 (by simp)
    · intro i b b2 hbi hbi2
      have hb2mem : b2 ∈ blocks st := List.getElem?_mem hbi2
      have hpb : perBlockErrors H (blocks st) b2 = [] :=
        hall _ (List.mem_map.2 ⟨b2, hb2mem, rfl⟩)
      rw [perBlockErrors, List.append_eq_nil] at hpb
      have h2 := hpb.2
      have hh : b2.height = i + 1 := hidx2 (i + 1) b2 hbi2
      by_cases hcond : 0 < b2.height ∧
          b2.previousBlockHash ≠ ((blocks st)[b2.height - 1]?).map Block.hash
      · rw [if_pos hcond] at h2
        exact absurd h2 (by simp)
      · push_neg at hcond
        have heq := hcond (by omega)
        rw [hh, show i + 1 - 1 = i from rfl, hbi] at heq
        simpa using heq
  · intro hspec l hl
    rw [List.mem_map] at hl
    obtain ⟨b, hb, rfl⟩ := hl
    obtain ⟨i, hbi⟩ := List.mem_iff_getElem?.1 hb
    have hv : blockValidate H b = true := by
      simp [blockValidate, hspec.1 b hb]
    have hh : b.height = i := hidx2 i b hbi
    rw [perBlockErrors, if_pos hv, List.nil_append, if_neg]
    intro hcon
    obtain ⟨hpos, hne⟩ := hcon
    have hipos : 0 < i := hh ▸ hpos
    have hilen : i < (blocks st).length := by
      obtain ⟨hw, -⟩ := List.getElem?_eq_some.1 hbi
      exact hw
    obtain ⟨bp, hprev⟩ : ∃ bp : Block, (blocks st)[i - 1]? = some bp :=
      ⟨_, List.getElem?_eq_getElem (by omega)⟩
    have hlink := hspec.2 (i - 1) bp b hprev
      (by rw [show i - 1 + 1 = i from by omega]; exact hbi)
    apply hne
    rw [hh, hprev, hlink]
    rfl

/-- Witness for C3 on a concrete one-block tampered chain: the
hypothesis holds by evaluation and the conclusion follows from the
theorem. -/
theorem c3_validate_witness :
    (∀ i : Fin (blocks stC).length, ((blocks stC).get i).height = (i : Nat)) ∧
    ((validateChainOp constH stC).2 = stC ∧
      (validateChainOp constH stC).1 =
        ((blocks stC).map (perBlockErrors constH (blocks stC))).flatten ∧
      ((validateChainOp constH stC).1 = [] ↔ ChainValidSpec constH (blocks stC))) :=
  ⟨by decide, c3_validate_complete_readonly constH stC (by decide)⟩

/-- C4 (amended): when the background validation of the current chain
state reports errors, `_addBlock` does not push the new block and leaves
the state unchanged, but it resolves with no block instead of rejecting
with a chain-corrupt error. -/
theorem c4_corrupt_chain_append_resolves_empty (H : String → String) (nowMs : Nat)
    (st : State) (b : Block) (h : validateChainErrors H (blocks st) ≠ []) :
    addBlockStep H nowMs st b = (Except.ok none, st) := by
  unfold addBlockStep
  rw [if_pos]
  simpa using h

/-- Witness for C4 (amended) on the concrete corrupt chain `stC`. -/
theorem c4_corrupt_witness :
    validateChainErrors constH (blocks stC) ≠ [] ∧
    addBlockStep constH 1100000 stC (Block.new ("y")) = (Except.ok none, stC) :=
  ⟨by decide,
    c4_corrupt_chain_append_resolves_empty constH 1100000 stC (Block.new ("y")) (by decide)⟩

/-- Counterexample to C4 as stated: on a concretely corrupt chain (the
single stored block fails its digest check) the append does not reject
with any error — in particular not with a chain-corrupt error — it
resolves with no block. -/
theorem c4_counterexample_no_rejection :
    validateChainErrors constH (blocks stC) ≠ [] ∧
    (addBlockStep constH 1100000 stC (Block.new ("z"))).1 = Except.ok none ∧
    (addBlockStep constH 1100000 stC (Block.new ("z"))).2 = stC ∧
    ¬ ∃ e : String, (addBlockStep constH 1100000 stC (Block.new ("z"))).1 = Except.error e := by
  refine ⟨by decide, by decide, by decide, ?_⟩
  intro hcon
  obtain ⟨e, he⟩ := hcon
  rw [show (addBlockStep constH 1100000 stC (Block.new ("z"))).1 = Except.ok none from by decide] at he
  exact Except.noConfusion he

/-- C5: after initialization and after every sequence of successful
appends (any reachable state, under a digest collaborator of the
specified shape), the chain is non-empty, has no undefined entries, the
genesis entry at height 0 carries the sentinel `previousBlockHash` and
no owner, every block's height is its index, and every later block links
to the stored hash of its predecessor. -/
theorem c5_chain_invariants (H : String → String) (hH : GoodHasher H) (st : State)
    (hr : Reachable H st) :
    st.chain ≠ [] ∧
    st.chain = (blocks st).map some ∧
    (∀ (i : Nat) (b : Block), (blocks st)[i]? = some b → b.height = i) ∧
    (∀ b : Block, (blocks st)[0]? = some b → b.previousBlockHash = none ∧ b.owner = none) ∧
    (∀ (i : Nat) (b b2 : Block), (blocks st)[i]? = some b → (blocks st)[i + 1]? = some b2 →
      b2.previousBlockHash = some b.hash) := by
  obtain ⟨hi, hne⟩ := reachable_inv H hH st hr
  refine ⟨?_, hi.noUndef, hi.heightIdx, hi.genesis0, hi.linkOk⟩
  intro hcon
  apply hne
  unfold blocks
  rw [hcon]
  rfl

/-- Witness for C5 at the concrete initialised chain `stG`. -/
theorem c5_chain_invariants_witness :
    GoodHasher constH ∧ Reachable constH stG ∧
    (stG.chain ≠ [] ∧
      stG.chain = (blocks stG).map some ∧
      (∀ (i : Nat) (b : Block), (blocks stG)[i]? = some b → b.height = i) ∧
      (∀ b : Block, (blocks stG)[0]? = some b → b.previousBlockHash = none ∧ b.owner = none) ∧
      (∀ (i : Nat) (b b2 : Block), (blocks stG)[i]? = some b → (blocks stG)[i + 1]? = some b2 →
        b2.previousBlockHash = some b.hash)) :=
  ⟨constH_good, Reachable.genesis 1000000 (by omega),
    c5_chain_invariants constH constH_good stG (Reachable.genesis 1000000 (by omega))⟩

/-- C6: the submission window check of `submitStar` accepts exactly the
parsable challenge messages whose elapsed time is at most 300 seconds —
so exactly 300 is accepted, 301 or more is rejected, and a negative
elapsed time (issued in the future) is accepted. -/
theorem c6_window_accepts_iff (now issued : Int) :
    expiredAt (some now) (some issued) = false ↔ now - issued ≤ 300 := by
  unfold expiredAt targetTime
  simp only [decide_eq_false_iff_not, not_lt]
  omega

/-- C7: for every hasher, clock, chain state and candidate block — hence
for every payload, including the empty one — recomputing the digest of
the sealed block from its stored fields (the canonical serialization
with the hash slot nulled) reproduces the stored `hash` exactly, and the
block validator accepts the sealed block. -/
theorem c7_seal_hash_roundtrip (H : String → String) (nowMs : Nat) (st : State) (b : Block) :
    H (preImage (sealBlock H nowMs st b)) = (sealBlock H nowMs st b).hash ∧
    blockValidate H (sealBlock H nowMs st b) = true := by
  refine ⟨rfl, ?_⟩
  unfold blockValidate
  exact beq_iff_eq.2 rfl

/-- C8: `getStarsByWalletAddress` returns exactly the decoded payloads
of the blocks whose owner is the queried identity, each annotated with
that owner, in chain order — which is ascending height order on every
reachable state — with the empty list (not an error) when nothing
matches; the genesis block, having no owner, is never selected. -/
theorem c8_stars_by_owner (H : String → String) (hH : GoodHasher H) (st : State)
    (hr : Reachable H st) (address : String) :
    getStarsByWalletAddress st address =
      ((blocks st).filter (fun b => b.owner == some address)).map
        (fun b => Star.mk b.body address) ∧
    (∀ s ∈ getStarsByWalletAddress st address, s.owner = address) ∧
    (∀ b ∈ (blocks st).filter (fun b => b.owner == some address),
      b.owner = some address ∧ 0 < b.height) ∧
    ((blocks st).filter (fun b => b.owner == some address)).Pairwise
      (fun b b2 => b.height < b2.height) ∧
    ((blocks st).filter (fun b => b.owner == some address) = [] →
      getStarsByWalletAddress st address = []) := by
  obtain ⟨hi, -⟩ := reachable_inv H hH st hr
  refine ⟨rfl, ?_, ?_, ?_, ?_⟩
  · intro s hs
    rw [getStarsByWalletAddress, List.mem_map] at hs
    obtain ⟨b, -, rfl⟩ := hs
    rfl
  · intro b hb
    rw [List.mem_filter] at hb
    obtain ⟨hmem, hown⟩ := hb
    have hown2 : b.owner = some address := by simpa using hown
    refine ⟨hown2, ?_⟩
    obtain ⟨i, hbi⟩ := List.mem_iff_getElem?.1 hmem
    have hh : b.height = i := hi.heightIdx i b hbi
    rcases Nat.eq_zero_or_pos i with hz | hp
    · exfalso
      subst hz
      have hgen := (hi.genesis0 b hbi).2
      rw [hgen] at hown2
      exact Option.noConfusion hown2
    · omega
  · have hpw : (blocks st).Pairwise (fun b b2 => b.height < b2.height) := by
      rw [List.pairwise_iff_get]
      intro i j hij
      rw [List.get_eq_getElem, List.get_eq_getElem]
      have hhi := hi.heightIdx (i : Nat) ((blocks st)[(i : Nat)])
        (List.getElem?_eq_getElem i.isLt)
      have hhj := hi.heightIdx (j : Nat) ((blocks st)[(j : Nat)])
        (List.getElem?_eq_getElem j.isLt)
      rw [hhi, hhj]
      exact hij
    exact List.Pairwise.sublist (List.filter_sublist _) hpw
  · intro hnil
    unfold getStarsByWalletAddress
    rw [hnil]
    rfl

/-- Witness for C8 at the concrete initialised chain `stG`. -/
theorem c8_stars_by_owner_witness :
    GoodHasher constH ∧ Reachable constH stG ∧
    (getStarsByWalletAddress stG ("alice") =
      ((blocks stG).filter (fun b => b.owner == some ("alice"))).map
        (fun b => Star.mk b.body ("alice")) ∧
    (∀ s ∈ getStarsByWalletAddress stG ("alice"), s.owner = "alice") ∧
    (∀ b ∈ (blocks stG).filter (fun b => b.owner == some ("alice")),
      b.owner = some ("alice") ∧ 0 < b.height) ∧
    ((blocks stG).filter (fun b => b.owner == some ("alice"))).Pairwise
      (fun b b2 => b.height < b2.height) ∧
    ((blocks stG).filter (fun b => b.owner == some ("alice")) = [] →
      getStarsByWalletAddress stG ("alice") = [])) :=
  ⟨constH_good, Reachable.genesis 1000000 (by omega),
    c8_stars_by_owner constH constH_good stG (Reachable.genesis 1000000 (by omega)) ("alice")⟩

/-- C9: on every reachable state — after construction-and-initialization
and after every completed append — `this.height` equals
`this.chain.length - 1`, the index of the last entry rather than the
number of entries, and `getChainHeight` resolves with exactly this
value. -/
theorem c9_height_tracks_last_index (H : String → String) (st : State) (hr : Reachable H st) :
    st.height = (st.chain.length : Int) - 1 ∧ getChainHeight st = st.height :=
  ⟨reachable_height_eq H st hr, rfl⟩

/-- Witness for C9 at the concrete initialised chain `stG`. -/
theorem c9_height_witness :
    Reachable constH stG ∧
    (stG.height = (stG.chain.length : Int) - 1 ∧ getChainHeight stG = stG.height) :=
  ⟨Reachable.genesis 1000000 (by omega),
    c9_height_tracks_last_index constH stG (Reachable.genesis 1000000 (by omega))⟩

/-- C10: `getUTCTimestamp` returns a string (its codomain), obtained by
deleting the last three characters of the decimal rendering of the
millisecond clock; for readings of at least 1000 ms this equals the
decimal rendering of the floor division by 1000; and that very string is
the sealed block timestamp and the middle (issuedAt) segment of every
challenge message. -/
theorem c10_timestamp_string (ms : Nat) (h : 1000 ≤ ms) :
    getUTCTimestamp ms = decRender (ms / 1000) ∧
    (∀ (H : String → String) (st : State) (b : Block),
      (sealBlock H ms st b).time = getUTCTimestamp ms) ∧
    (∀ address : String,
      requestMessageOwnershipVerification ms address =
        address ++ ":" ++ getUTCTimestamp ms ++ ":starRegistry") :=
  ⟨getUTCTimestamp_eq_div ms h, fun _ _ _ => rfl, fun _ => rfl⟩

/-- Witness for C10 at the concrete clock reading 1234567 ms. -/
theorem c10_timestamp_witness :
    1000 ≤ 1234567 ∧
    (getUTCTimestamp 1234567 = decRender (1234567 / 1000) ∧
      (∀ (H : String → String) (st : State) (b : Block),
        (sealBlock H 1234567 st b).time = getUTCTimestamp 1234567) ∧
      (∀ address : String,
        requestMessageOwnershipVerification 1234567 address =
          address ++ ":" ++ getUTCTimestamp 1234567 ++ ":starRegistry")) :=
  ⟨by omega, c10_timestamp_string 1234567 (by omega)⟩

end PrivateBlockchain
